import Mathlib

/-!
Verification of the field-configuration normalization and precedence-merge
engine of `sails-hook-adminpanel` (`helper/fieldsHelper.js`), as a shallow
embedding in Lean 4.

JavaScript values relevant to the engine are modelled by the inductive type
`JsVal` (undefined, null, NaN, booleans, numbers, strings, plain objects as
ordered association lists).  The lodash helpers the source relies on
(`_.isUndefined`, `_.isBoolean`, `_.isString`, `_.isPlainObject`, `_.merge`,
truthiness) are embedded directly, and the two source functions
`_normalizeFieldConfig` and `getFields` (with its inner `_prepareField`
closure) are translated clause by clause.  The in-place property writes that
`_normalizeFieldConfig` performs on a plain-object argument, and the resulting
mutation of the caller-supplied override maps inside `getFields`, are modelled
by explicit state passing: `getFields` returns the final result map together
with the post-call contents of the two override maps.
-/

namespace AdminPanel

/-- JavaScript runtime values as far as the field-configuration engine
observes them: `undefined`, `null`, `NaN`, booleans, (integer) numbers,
strings, and plain objects represented as ordered association lists of
properties. -/
inductive JsVal where
  | undefined
  | null
  | nan
  | bool (b : Bool)
  | num (n : Int)
  | str (s : String)
  | obj (fields : List (String × JsVal))

/-- Property lists of a plain object. -/
abbrev JsFields := List (String × JsVal)

mutual
def jsBeq : JsVal → JsVal → Bool
  | JsVal.undefined, JsVal.undefined => true
  | JsVal.null, JsVal.null => true
  | JsVal.nan, JsVal.nan => true
  | JsVal.bool a, JsVal.bool b => a == b
  | JsVal.num a, JsVal.num b => a == b
  | JsVal.str a, JsVal.str b => a == b
  | JsVal.obj a, JsVal.obj b => jsFieldsBeq a b
  | _, _ => false

def jsFieldsBeq : JsFields → JsFields → Bool
  | [], [] => true
  | (k, v) :: r, (k1, v1) :: r1 => k == k1 && jsBeq v v1 && jsFieldsBeq r r1
  | _, _ => false
end

mutual
theorem jsBeq_iff : (a b : JsVal) → (jsBeq a b = true ↔ a = b)
  | JsVal.undefined, b => by cases b <;> simp [jsBeq]
  | JsVal.null, b => by cases b <;> simp [jsBeq]
  | JsVal.nan, b => by cases b <;> simp [jsBeq]
  | JsVal.bool a, b => by cases b <;> simp [jsBeq]
  | JsVal.num a, b => by cases b <;> simp [jsBeq]
  | JsVal.str a, b => by cases b <;> simp [jsBeq]
  | JsVal.obj fs, b => by
      cases b <;> simp [jsBeq]
      exact jsFieldsBeq_iff fs _

theorem jsFieldsBeq_iff : (l m : JsFields) → (jsFieldsBeq l m = true ↔ l = m)
  | [], m => by cases m <;> simp [jsFieldsBeq]
  | (k, v) :: r, [] => by simp [jsFieldsBeq]
  | (k, v) :: r, (k1, v1) :: r1 => by
      simp [jsFieldsBeq, jsBeq_iff v v1, jsFieldsBeq_iff r r1, and_assoc]
end

instance : DecidableEq JsVal := fun a b => decidable_of_iff _ (jsBeq_iff a b)

/-- JavaScript truthiness: `undefined`, `null`, `NaN`, `false`, `0` and the
empty string are falsy, every other value is truthy. -/
def JsVal.truthy : JsVal → Bool
  | JsVal.undefined => false
  | JsVal.null => false
  | JsVal.nan => false
  | JsVal.bool b => b
  | JsVal.num n => n != 0
  | JsVal.str s => s != ""
  | JsVal.obj _ => true

/-- Embedding of lodash `_.isBoolean`. -/
def JsVal.isBoolean : JsVal → Bool
  | JsVal.bool _ => true
  | _ => false

/-- Embedding of lodash `_.isString`. -/
def JsVal.isString : JsVal → Bool
  | JsVal.str _ => true
  | _ => false

/-- Embedding of lodash `_.isPlainObject` (restricted to the value shapes of
the model; arrays, functions and class instances do not occur). -/
def JsVal.isPlainObject : JsVal → Bool
  | JsVal.obj _ => true
  | _ => false

/-- Property read on a property list; reading an absent property yields
`undefined`, as in JavaScript. -/
def getField : JsFields → String → JsVal
  | [], _ => JsVal.undefined
  | (k1, v1) :: rest, k => if k1 = k then v1 else getField rest k

/-- Property write on a property list: replaces the first occurrence of the
property, or appends it, matching JavaScript property-assignment order
(existing properties keep their position, new ones are appended). -/
def setField : JsFields → String → JsVal → JsFields
  | [], k, v => [(k, v)]
  | (k1, v1) :: rest, k, v =>
      if k1 = k then (k1, v) :: rest else (k1, v1) :: setField rest k v

/-- Property read on a value: `undefined` on non-objects. -/
def JsVal.getProp : JsVal → String → JsVal
  | JsVal.obj fs, k => getField fs k
  | _, _ => JsVal.undefined

/-- Property write on a value; a no-op on non-objects (never used on one). -/
def JsVal.setProp : JsVal → String → JsVal → JsVal
  | JsVal.obj fs, k, v => JsVal.obj (setField fs k v)
  | w, _, _ => w

mutual
/-- Per-property behaviour of lodash `_.merge(dst, src)`: a source property
that resolves to `undefined` is skipped (the destination value is kept); when
both sides are plain objects they are merged recursively; otherwise the
source value wins. -/
def mergeProp : JsVal → JsVal → JsVal
  | JsVal.obj d, JsVal.obj s => JsVal.obj (mergeFields d s)
  | old, JsVal.undefined => old
  | _, v => v

/-- Folds the source property list into the destination property list, one
property at a time, in source order. -/
def mergeFields : JsFields → JsFields → JsFields
  | d, [] => d
  | d, (k, v) :: rest => mergeFields (setField d k (mergeProp (getField d k) v)) rest
end

/-- Embedding of a top-level lodash `_.merge(dst, src)` call as used by
`_prepareField`: when the source is not a plain object it has no own
enumerable properties, so the call leaves the destination unchanged (in the
source this happens when `_normalizeFieldConfig` returned the `false`
sentinel). -/
def lodashMerge : JsVal → JsVal → JsVal
  | JsVal.obj d, JsVal.obj s => JsVal.obj (mergeFields d s)
  | dst, _ => dst

/-- Result value of `_normalizeFieldConfig` on defined arguments, clause by
clause from the source: boolean `false` gives the `false` sentinel, boolean
`true` gives `{key, title: key}`, a string gives `{key, title: config}`, a
plain object gets `key` and then `title` injected when falsy and is returned
itself, and every other shape gives `false`.  For a plain-object argument the
returned object is the argument object mutated in place. -/
def normBody (config key : JsVal) : JsVal :=
  match config with
  | JsVal.bool b =>
      if b then JsVal.obj [("key", key), ("title", key)] else JsVal.bool false
  | JsVal.str s => JsVal.obj [("key", key), ("title", JsVal.str s)]
  | JsVal.obj fs =>
      let fs1 := if (getField fs "key").truthy then fs else setField fs "key" key
      let fs2 := if (getField fs1 "title").truthy then fs1 else setField fs1 "title" key
      JsVal.obj fs2
  | _ => JsVal.bool false

/-- Embedding of `_normalizeFieldConfig(config, key)`: throws when `config`
or `key` is `undefined` (modelled by `Except.error`), otherwise returns
`normBody config key`. -/
def _normalizeFieldConfig (config key : JsVal) : Except String JsVal :=
  if config = JsVal.undefined ∨ key = JsVal.undefined then
    Except.error "No config or key passed !"
  else
    Except.ok (normBody config key)

/-- One entry of the `getFields` result map: the resolved field config paired
with the originating model attribute (after string-shorthand coercion). -/
structure ResolvedEntry where
  config : JsVal
  model : JsVal
deriving DecidableEq

/-- State threaded through the `_prepareField` iteration: the result map
built so far, plus the current contents of the two caller-supplied override
maps (which `_normalizeFieldConfig` mutates in place when it normalizes a
plain-object override stored in them). -/
structure ResolveState where
  result : List (String × ResolvedEntry)
  globalFields : JsFields
  actionFields : JsFields
deriving DecidableEq

/-- Waterline string shorthand: a model attribute declared as a bare string
`s` stands for the object `{type: s}`. -/
def coerceModelField (mf : JsVal) : JsVal :=
  if mf.isString then JsVal.obj [("type", mf)] else mf

/-- Final value of the `ignoreField` flag after both override layers: the
global layer sets it exactly when the global override is literally `false`;
the action layer overrides it — literal `false` hides, a truthy override
resets it to `false` (un-hides), any other value leaves the global decision
in place. -/
def resolvedIgnore (gv av : JsVal) : Bool :=
  if av = JsVal.bool false then true
  else if av.truthy then false
  else gv = JsVal.bool false

/-- Contribution of one override layer to the working config of the field
with key `k`: when the override value is truthy it is normalized and merged
into the working config (`_.merge(fldConfig, tmpCfg)`); a literal `false` or
any other falsy value merges nothing. -/
def layerStep (fld v : JsVal) (k : String) : JsVal :=
  if v.truthy then lodashMerge fld (normBody v (JsVal.str k)) else fld

/-- Working config after both override layers and the final defensive
re-normalization, for a field with key `k`: starts from `{key: k, title: k}`,
applies the global layer, then the action layer, then re-runs the normalizer
on the merged object. -/
def mergedConfig (gv av : JsVal) (k : String) : JsVal :=
  normBody
    (layerStep (layerStep (JsVal.obj [("key", JsVal.str k), ("title", JsVal.str k)]) gv k) av k)
    (JsVal.str k)

/-- Emitted config for a visible field: the merged config with
`required = Boolean(fldConfig.required || modelField.required)` and
`type = fldConfig.type || modelField.type` assigned, in that order. -/
def finalConfig (gv av : JsVal) (k : String) (mf : JsVal) : JsVal :=
  let c := mergedConfig gv av k
  let req := (c.getProp "required").truthy || (mf.getProp "required").truthy
  let c1 := c.setProp "required" (JsVal.bool req)
  let t := if (c1.getProp "type").truthy then c1.getProp "type" else mf.getProp "type"
  c1.setProp "type" t

/-- Result-map contribution of `_prepareField` for one model attribute, as a
function of the two override values looked up for its key: `none` when the
attribute is the identifier field of an `add` action or when `ignoreField`
survives both layers, otherwise the resolved entry. -/
def entryFor (ty idf : String) (gv av : JsVal) (k : String) (mf0 : JsVal) :
    Option ResolvedEntry :=
  let mf := coerceModelField mf0
  if ty = "add" ∧ k = idf then none
  else if resolvedIgnore gv av then none
  else some ⟨finalConfig gv av k mf, mf⟩

/-- Value of an override-map entry after `_prepareField` has processed its
key: `_normalizeFieldConfig` is invoked on it exactly when it is truthy, and
mutates it in place (injecting falsy `key`/`title`) exactly when it is a
plain object; every other stored value is left as it was. -/
def overrideAfter (v : JsVal) (k : String) : JsVal :=
  if v.truthy && v.isPlainObject then normBody v (JsVal.str k) else v

/-- In-place effect of `_prepareField` on one override map at key `k`. -/
def mutateMap (m : JsFields) (k : String) : JsFields :=
  let v := getField m k
  if v.truthy && v.isPlainObject then setField m k (normBody v (JsVal.str k)) else m

/-- Embedding of the inner `_prepareField(modelField, key)` closure of
`getFields`, with the mutation of the two caller-supplied override maps made
explicit in the threaded state.  On the identifier field of an `add` action
it returns before touching anything. -/
def prepareField (ty idf : String) (st : ResolveState) (k : String) (mf0 : JsVal) :
    ResolveState :=
  if ty = "add" ∧ k = idf then st
  else
    let gv := getField st.globalFields k
    let av := getField st.actionFields k
    let g1 := mutateMap st.globalFields k
    let a1 := mutateMap st.actionFields k
    match entryFor ty idf gv av k mf0 with
    | none => ⟨st.result, g1, a1⟩
    | some e => ⟨st.result ++ [(k, e)], g1, a1⟩

/-- Embedding of the `_.pick` filter of `getFields`: keep the attributes
whose value is a plain object or a string and which carry no truthy
relational `collection`/`model` marker. -/
def pickAttrs (attrs : JsFields) : JsFields :=
  attrs.filter fun kv =>
    (kv.2.isPlainObject || kv.2.isString)
      && !(kv.2.getProp "collection").truthy && !(kv.2.getProp "model").truthy

/-- Iteration of `_prepareField` over the picked model attributes
(`_.forEach(modelAttributes, _prepareField)`). -/
def getFieldsAux (ty idf : String) : JsFields → ResolveState → ResolveState
  | [], st => st
  | (k, v) :: rest, st => getFieldsAux ty idf rest (prepareField ty idf st k v)

/-- Embedding of `type = type || 'list'`: an absent or empty action name
defaults to `list`. -/
def effectiveType (ty0 : Option String) : String :=
  match ty0 with
  | none => "list"
  | some s => if s = "" then "list" else s

/-- Embedding of `getFields` from the stage where the model attributes, the
global `fields` configuration and the action-level `fields` configuration
are in hand (request plumbing and model discovery are upstream
collaborators).  Returns the result map together with the post-call contents
of the two override maps. -/
def getFields (attrs globalFields actionFields : JsFields) (ty0 : Option String)
    (idf : String) : ResolveState :=
  getFieldsAux (effectiveType ty0) idf (pickAttrs attrs)
    ⟨[], globalFields, actionFields⟩

/-- First-match lookup in the result map, the analogue of reading
`result[key]`. -/
def getEntry : List (String × ResolvedEntry) → String → Option ResolvedEntry
  | [], _ => none
  | (k1, e) :: rest, k => if k1 = k then some e else getEntry rest k

instance {ε α : Type} [DecidableEq ε] [DecidableEq α] : DecidableEq (Except ε α) :=
  fun a b =>
    match a, b with
    | Except.error e, Except.error f => decidable_of_iff (e = f) (by simp)
    | Except.ok x, Except.ok y => decidable_of_iff (x = y) (by simp)
    | Except.error _, Except.ok _ => isFalse fun h => Except.noConfusion h
    | Except.ok _, Except.error _ => isFalse fun h => Except.noConfusion h

/-! Basic lemmas about property reads and writes. -/

theorem getField_setField_self (l : JsFields) (k : String) (v : JsVal) :
    getField (setField l k v) k = v := by
  induction l with
  | nil => simp [getField, setField]
  | cons kv rest ih =>
      obtain ⟨k1, v1⟩ := kv
      by_cases h : k1 = k <;> simp [getField, setField, h, ih]

theorem getField_setField_ne (l : JsFields) (k p : String) (v : JsVal) (h : p ≠ k) :
    getField (setField l k v) p = getField l p := by
  induction l with
  | nil =>
      show getField [(k, v)] p = JsVal.undefined
      rw [getField, if_neg (Ne.symm h)]
      rfl
  | cons kv rest ih =>
      obtain ⟨k1, v1⟩ := kv
      by_cases h1 : k1 = k
      · subst h1
        rw [setField, if_pos rfl, getField, getField, if_neg (Ne.symm h),
          if_neg (Ne.symm h)]
      · rw [setField, if_neg h1, getField, getField]
        by_cases h2 : k1 = p
        · rw [if_pos h2, if_pos h2]
        · rw [if_neg h2, if_neg h2, ih]

theorem setField_map_fst (l : JsFields) (k : String) (v : JsVal)
    (h : k ∈ l.map Prod.fst) : (setField l k v).map Prod.fst = l.map Prod.fst := by
  induction l with
  | nil => simp at h
  | cons kv rest ih =>
      obtain ⟨k1, v1⟩ := kv
      by_cases h1 : k1 = k
      · rw [setField, if_pos h1]
        rfl
      · rw [List.map_cons, List.mem_cons] at h
        rcases h with h | h
        · exact absurd h.symm h1
        · rw [setField, if_neg h1, List.map_cons, List.map_cons, ih h]

theorem setField_map_fst_not_mem (l : JsFields) (k : String) (v : JsVal)
    (h : k ∉ l.map Prod.fst) :
    (setField l k v).map Prod.fst = l.map Prod.fst ++ [k] := by
  induction l with
  | nil => rfl
  | cons kv rest ih =>
      obtain ⟨k1, v1⟩ := kv
      rw [List.map_cons, List.mem_cons] at h
      push_neg at h
      rw [setField, if_neg (fun hh => h.1 hh.symm), List.map_cons, List.map_cons,
        ih h.2, List.cons_append]

theorem setField_keys_nodup (l : JsFields) (k : String) (v : JsVal)
    (h : (l.map Prod.fst).Nodup) : ((setField l k v).map Prod.fst).Nodup := by
  by_cases hm : k ∈ l.map Prod.fst
  · rw [setField_map_fst l k v hm]; exact h
  · rw [setField_map_fst_not_mem l k v hm]
    simp [List.nodup_append, h, hm]

theorem getField_not_mem (l : JsFields) (k : String) (h : k ∉ l.map Prod.fst) :
    getField l k = JsVal.undefined := by
  induction l with
  | nil => rfl
  | cons kv rest ih =>
      obtain ⟨k1, v1⟩ := kv
      rw [List.map_cons, List.mem_cons] at h
      push_neg at h
      rw [getField, if_neg (fun hh => h.1 hh.symm), ih h.2]

theorem mem_of_getField_ne (l : JsFields) (k : String)
    (h : getField l k ≠ JsVal.undefined) : k ∈ l.map Prod.fst := by
  by_contra hm
  exact h (getField_not_mem l k hm)

theorem setField_getField_self (l : JsFields) (k : String)
    (h : k ∈ l.map Prod.fst) : setField l k (getField l k) = l := by
  induction l with
  | nil => simp at h
  | cons kv rest ih =>
      obtain ⟨k1, v1⟩ := kv
      by_cases h1 : k1 = k
      · subst h1
        rw [getField, if_pos rfl, setField, if_pos rfl]
      · rw [List.map_cons, List.mem_cons] at h
        rcases h with h | h
        · exact absurd h.symm h1
        · rw [getField, if_neg h1, setField, if_neg h1, ih h]

/-! Lemmas about the lodash merge embedding. -/

theorem mergeProp_undefined (old : JsVal) : mergeProp old JsVal.undefined = old := by
  cases old <;> rfl

theorem mergeProp_truthy (old v : JsVal) (h : v.truthy = true) :
    (mergeProp old v).truthy = true := by
  cases old <;> cases v <;> simp_all [mergeProp, JsVal.truthy]

theorem getField_mergeFields (s : JsFields) (h : (s.map Prod.fst).Nodup) :
    ∀ (d : JsFields) (p : String),
      getField (mergeFields d s) p = mergeProp (getField d p) (getField s p) := by
  induction s with
  | nil =>
      intro d p
      rw [mergeFields, getField, mergeProp_undefined]
  | cons kv rest ih =>
      obtain ⟨k, v⟩ := kv
      rw [List.map_cons, List.nodup_cons] at h
      intro d p
      rw [mergeFields, ih h.2, getField]
      by_cases hp : p = k
      · subst hp
        rw [if_pos rfl, getField_not_mem rest p h.1, mergeProp_undefined,
          getField_setField_self]
      · rw [if_neg (fun hh => hp hh.symm), getField_setField_ne _ _ _ _ hp]

theorem mergeFields_keys_nodup (s : JsFields) :
    ∀ (d : JsFields), (d.map Prod.fst).Nodup → ((mergeFields d s).map Prod.fst).Nodup := by
  induction s with
  | nil => intro d hd; exact hd
  | cons kv rest ih =>
      obtain ⟨k, v⟩ := kv
      intro d hd
      rw [mergeFields]
      exact ih _ (setField_keys_nodup _ _ _ hd)

theorem lodashMerge_obj_isPlainObject (d : JsFields) (s : JsVal) :
    (lodashMerge (JsVal.obj d) s).isPlainObject = true := by
  cases s <;> rfl

/-- Top-level key uniqueness of an object value (automatic for genuine
JavaScript objects, whose property names are unique); trivially true on
non-objects. -/
def objKeysNodup : JsVal → Prop
  | JsVal.obj fs => (fs.map Prod.fst).Nodup
  | _ => True

instance : DecidablePred objKeysNodup := fun v =>
  match v with
  | JsVal.undefined => isTrue trivial
  | JsVal.null => isTrue trivial
  | JsVal.nan => isTrue trivial
  | JsVal.bool _ => isTrue trivial
  | JsVal.num _ => isTrue trivial
  | JsVal.str _ => isTrue trivial
  | JsVal.obj fs => inferInstanceAs (Decidable ((fs.map Prod.fst).Nodup))

/-! Lemmas about the normalizer body on plain objects. -/

theorem normBody_obj_isPlainObject (fs : JsFields) (key : JsVal) :
    (normBody (JsVal.obj fs) key).isPlainObject = true := by
  rw [normBody, JsVal.isPlainObject]

theorem normBody_obj_getProp_key (fs : JsFields) (key : JsVal) :
    (normBody (JsVal.obj fs) key).getProp "key"
      = if (getField fs "key").truthy then getField fs "key" else key := by
  rw [normBody]
  by_cases hk : (getField fs "key").truthy
  · rw [if_pos hk]
    by_cases ht : (getField fs "title").truthy
    · rw [if_pos ht, if_pos hk, JsVal.getProp]
    · rw [if_neg ht, if_pos hk, JsVal.getProp,
        getField_setField_ne _ _ _ _ (by decide : "key" ≠ "title")]
  · rw [if_neg hk]
    have h1 : getField (setField fs "key" key) "key" = key := getField_setField_self _ _ _
    have h2 : getField (setField fs "key" key) "title" = getField fs "title" :=
      getField_setField_ne _ _ _ _ (by decide : "title" ≠ "key")
    by_cases ht : (getField fs "title").truthy
    · rw [h2, if_pos ht, if_neg hk, JsVal.getProp, h1]
    · rw [h2, if_neg ht, if_neg hk, JsVal.getProp,
        getField_setField_ne _ _ _ _ (by decide : "key" ≠ "title"), h1]

theorem normBody_obj_getProp_title (fs : JsFields) (key : JsVal) :
    (normBody (JsVal.obj fs) key).getProp "title"
      = if (getField fs "title").truthy then getField fs "title" else key := by
  rw [normBody]
  by_cases hk : (getField fs "key").truthy
  · rw [if_pos hk]
    by_cases ht : (getField fs "title").truthy
    · rw [if_pos ht, if_pos ht, JsVal.getProp]
    · rw [if_neg ht, if_neg ht, JsVal.getProp, getField_setField_self]
  · rw [if_neg hk]
    have h2 : getField (setField fs "key" key) "title" = getField fs "title" :=
      getField_setField_ne _ _ _ _ (by decide : "title" ≠ "key")
    by_cases ht : (getField fs "title").truthy
    · rw [h2, if_pos ht, if_pos ht, JsVal.getProp, h2]
    · rw [h2, if_neg ht, if_neg ht, JsVal.getProp, getField_setField_self]

theorem normBody_obj_getProp_other (fs : JsFields) (key : JsVal) (p : String)
    (hp1 : p ≠ "key") (hp2 : p ≠ "title") :
    (normBody (JsVal.obj fs) key).getProp p = getField fs p := by
  rw [normBody]
  by_cases hk : (getField fs "key").truthy
  · rw [if_pos hk]
    by_cases ht : (getField fs "title").truthy
    · rw [if_pos ht, JsVal.getProp]
    · rw [if_neg ht, JsVal.getProp, getField_setField_ne _ _ _ _ hp2]
  · rw [if_neg hk]
    have h2 : getField (setField fs "key" key) "title" = getField fs "title" :=
      getField_setField_ne _ _ _ _ (by decide : "title" ≠ "key")
    by_cases ht : (getField fs "title").truthy
    · rw [h2, if_pos ht, JsVal.getProp, getField_setField_ne _ _ _ _ hp1]
    · rw [h2, if_neg ht, JsVal.getProp, getField_setField_ne _ _ _ _ hp2,
        getField_setField_ne _ _ _ _ hp1]

theorem normBody_obj_keys_nodup (fs : JsFields) (key : JsVal)
    (h : (fs.map Prod.fst).Nodup) : objKeysNodup (normBody (JsVal.obj fs) key) := by
  rw [normBody]
  by_cases hk : (getField fs "key").truthy
  · rw [if_pos hk]
    by_cases ht : (getField fs "title").truthy
    · rw [if_pos ht]; exact h
    · rw [if_neg ht]; exact setField_keys_nodup _ _ _ h
  · rw [if_neg hk]
    by_cases ht : (getField (setField fs "key" key) "title").truthy
    · rw [if_pos ht]; exact setField_keys_nodup _ _ _ h
    · rw [if_neg ht]
      exact setField_keys_nodup _ _ _ (setField_keys_nodup _ _ _ h)

theorem normBody_obj_fixpoint (fs : JsFields) (key : JsVal)
    (hk : (getField fs "key").truthy) (ht : (getField fs "title").truthy) :
    normBody (JsVal.obj fs) key = JsVal.obj fs := by
  rw [normBody, if_pos hk, if_pos ht]

theorem exists_obj_of_isPlainObject (x : JsVal) (h : x.isPlainObject = true) :
    ∃ d, x = JsVal.obj d := by
  cases x <;> first
    | exact ⟨_, rfl⟩
    | simp [JsVal.isPlainObject] at h

/-! Lemmas about the two override layers and the merged working config. -/

theorem layerStep_isPlainObject (fld v : JsVal) (k : String)
    (h : fld.isPlainObject = true) : (layerStep fld v k).isPlainObject = true := by
  obtain ⟨d, rfl⟩ := exists_obj_of_isPlainObject _ h
  rw [layerStep]
  by_cases hv : v.truthy = true
  · rw [if_pos hv]; exact lodashMerge_obj_isPlainObject _ _
  · rw [if_neg hv]; rfl

theorem str_truthy_of_ne (k : String) (hk : k ≠ "") : (JsVal.str k).truthy = true := by
  simp [JsVal.truthy, hk]

theorem layerStep_prop_truthy (fld v : JsVal) (k p : String) (hk : k ≠ "")
    (hp : p = "key" ∨ p = "title") (hnd : objKeysNodup v)
    (hfld : fld.isPlainObject = true)
    (h : (fld.getProp p).truthy = true) :
    ((layerStep fld v k).getProp p).truthy = true := by
  obtain ⟨d, rfl⟩ := exists_obj_of_isPlainObject _ hfld
  rw [layerStep]
  by_cases hv : v.truthy = true
  case neg => rw [if_neg hv]; exact h
  rw [if_pos hv]
  cases v with
  | undefined => simp [JsVal.truthy] at hv
  | null => simp [JsVal.truthy] at hv
  | nan => simp [JsVal.truthy] at hv
  | num n =>
      show ((lodashMerge (JsVal.obj d) (JsVal.bool false)).getProp p).truthy = true
      exact h
  | bool b =>
      have hb : b = true := hv
      subst hb
      show ((lodashMerge (JsVal.obj d)
        (JsVal.obj [("key", JsVal.str k), ("title", JsVal.str k)])).getProp p).truthy = true
      rw [lodashMerge, JsVal.getProp,
        getField_mergeFields [("key", JsVal.str k), ("title", JsVal.str k)] (by simp)]
      have hsrc : (getField [("key", JsVal.str k), ("title", JsVal.str k)] p).truthy = true := by
        rcases hp with rfl | rfl
        · rw [getField, if_pos rfl]; exact str_truthy_of_ne k hk
        · rw [getField, if_neg (by decide : ¬("key" = "title")), getField, if_pos rfl]
          exact str_truthy_of_ne k hk
      exact mergeProp_truthy _ _ hsrc
  | str s =>
      show ((lodashMerge (JsVal.obj d)
        (JsVal.obj [("key", JsVal.str k), ("title", JsVal.str s)])).getProp p).truthy = true
      rw [lodashMerge, JsVal.getProp,
        getField_mergeFields [("key", JsVal.str k), ("title", JsVal.str s)] (by simp)]
      have hsrc : (getField [("key", JsVal.str k), ("title", JsVal.str s)] p).truthy = true := by
        rcases hp with rfl | rfl
        · rw [getField, if_pos rfl]; exact str_truthy_of_ne k hk
        · rw [getField, if_neg (by decide : ¬("key" = "title")), getField, if_pos rfl]
          exact hv
      exact mergeProp_truthy _ _ hsrc
  | obj fs =>
      obtain ⟨gs, hgs⟩ := exists_obj_of_isPlainObject _ (normBody_obj_isPlainObject fs (JsVal.str k))
      rw [hgs, lodashMerge, JsVal.getProp, getField_mergeFields]
      · have hsrc : (getField gs p).truthy = true := by
          have hget : (JsVal.obj gs).getProp p
              = if (getField fs p).truthy then getField fs p else JsVal.str k := by
            rw [← hgs]
            rcases hp with rfl | rfl
            · exact normBody_obj_getProp_key fs (JsVal.str k)
            · exact normBody_obj_getProp_title fs (JsVal.str k)
          rw [JsVal.getProp] at hget
          rw [hget]
          by_cases ho : (getField fs p).truthy = true
          · rw [if_pos ho]; exact ho
          · rw [if_neg ho]; exact str_truthy_of_ne k hk
        exact mergeProp_truthy _ _ hsrc
      · have := normBody_obj_keys_nodup fs (JsVal.str k) hnd
        rw [hgs] at this
        exact this

theorem mergedConfig_isPlainObject (gv av : JsVal) (k : String) :
    (mergedConfig gv av k).isPlainObject = true := by
  rw [mergedConfig]
  obtain ⟨d, hd⟩ := exists_obj_of_isPlainObject _
    (layerStep_isPlainObject _ av k (layerStep_isPlainObject (JsVal.obj [("key", JsVal.str k), ("title", JsVal.str k)]) gv k rfl))
  rw [hd]
  exact normBody_obj_isPlainObject _ _

theorem mergedConfig_prop_truthy (gv av : JsVal) (k p : String) (hk : k ≠ "")
    (hp : p = "key" ∨ p = "title") (hg : objKeysNodup gv) (ha : objKeysNodup av) :
    ((mergedConfig gv av k).getProp p).truthy = true := by
  rw [mergedConfig]
  have h0 : ((JsVal.obj [("key", JsVal.str k), ("title", JsVal.str k)]).getProp p).truthy
      = true := by
    rcases hp with rfl | rfl
    · rw [JsVal.getProp, getField, if_pos rfl]; exact str_truthy_of_ne k hk
    · rw [JsVal.getProp, getField, if_neg (by decide : ¬("key" = "title")), getField,
        if_pos rfl]
      exact str_truthy_of_ne k hk
  have h1 := layerStep_prop_truthy (JsVal.obj [("key", JsVal.str k), ("title", JsVal.str k)]) gv k p hk hp hg rfl h0
  have h2 := layerStep_prop_truthy _ av k p hk hp ha
    (layerStep_isPlainObject (JsVal.obj [("key", JsVal.str k), ("title", JsVal.str k)]) gv k rfl) h1
  obtain ⟨d2, hd2⟩ := exists_obj_of_isPlainObject _
    (layerStep_isPlainObject _ av k (layerStep_isPlainObject (JsVal.obj [("key", JsVal.str k), ("title", JsVal.str k)]) gv k rfl))
  rw [hd2] at h2 ⊢
  rw [JsVal.getProp] at h2
  rcases hp with rfl | rfl
  · rw [normBody_obj_getProp_key, if_pos h2]; exact h2
  · rw [normBody_obj_getProp_title, if_pos h2]; exact h2

/-! Lemmas about property writes on values and about the final config. -/

theorem getProp_setProp_self (x : JsVal) (k : String) (v : JsVal)
    (h : x.isPlainObject = true) : (x.setProp k v).getProp k = v := by
  obtain ⟨d, rfl⟩ := exists_obj_of_isPlainObject _ h
  rw [JsVal.setProp, JsVal.getProp, getField_setField_self]

theorem getProp_setProp_ne (x : JsVal) (k p : String) (v : JsVal) (hp : p ≠ k) :
    (x.setProp k v).getProp p = x.getProp p := by
  cases x <;> try rfl
  rw [JsVal.setProp, JsVal.getProp, JsVal.getProp, getField_setField_ne _ _ _ _ hp]

theorem setProp_isPlainObject (x : JsVal) (k : String) (v : JsVal)
    (h : x.isPlainObject = true) : (x.setProp k v).isPlainObject = true := by
  obtain ⟨d, rfl⟩ := exists_obj_of_isPlainObject _ h
  rfl

theorem finalConfig_getProp_required (gv av : JsVal) (k : String) (mf : JsVal) :
    (finalConfig gv av k mf).getProp "required"
      = JsVal.bool (((mergedConfig gv av k).getProp "required").truthy
          || (mf.getProp "required").truthy) := by
  rw [finalConfig]
  rw [getProp_setProp_ne _ _ _ _ (by decide : "required" ≠ "type"),
    getProp_setProp_self _ _ _ (mergedConfig_isPlainObject gv av k)]

theorem finalConfig_getProp_type (gv av : JsVal) (k : String) (mf : JsVal) :
    (finalConfig gv av k mf).getProp "type"
      = if ((mergedConfig gv av k).getProp "type").truthy
          then (mergedConfig gv av k).getProp "type" else mf.getProp "type" := by
  rw [finalConfig]
  rw [getProp_setProp_self _ _ _
    (setProp_isPlainObject _ _ _ (mergedConfig_isPlainObject gv av k)),
    getProp_setProp_ne _ _ _ _ (by decide : "type" ≠ "required")]

theorem finalConfig_getProp_other (gv av : JsVal) (k : String) (mf : JsVal) (p : String)
    (hp1 : p ≠ "required") (hp2 : p ≠ "type") :
    (finalConfig gv av k mf).getProp p = (mergedConfig gv av k).getProp p := by
  rw [finalConfig]
  rw [getProp_setProp_ne _ _ _ _ hp2, getProp_setProp_ne _ _ _ _ hp1]

/-! Lemmas about the in-place mutation of the override maps. -/

theorem mutateMap_getField_self (m : JsFields) (k : String) :
    getField (mutateMap m k) k = overrideAfter (getField m k) k := by
  rw [mutateMap, overrideAfter]
  by_cases h : (getField m k).truthy && (getField m k).isPlainObject
  · rw [if_pos h, if_pos h, getField_setField_self]
  · rw [if_neg h, if_neg h]

theorem mutateMap_getField_ne (m : JsFields) (k p : String) (hp : p ≠ k) :
    getField (mutateMap m k) p = getField m p := by
  rw [mutateMap]
  by_cases h : (getField m k).truthy && (getField m k).isPlainObject
  · rw [if_pos h, getField_setField_ne _ _ _ _ hp]
  · rw [if_neg h]

theorem mutateMap_map_fst (m : JsFields) (k : String) :
    (mutateMap m k).map Prod.fst = m.map Prod.fst := by
  rw [mutateMap]
  by_cases h : (getField m k).truthy && (getField m k).isPlainObject
  · rw [if_pos h]
    refine setField_map_fst m k _ (mem_of_getField_ne m k ?_)
    intro hu
    rw [hu] at h
    simp [JsVal.truthy] at h
  · rw [if_neg h]

/-! Characterization of one `_prepareField` step. -/

theorem prepareField_result (ty idf : String) (st : ResolveState) (k : String)
    (mf0 : JsVal) :
    (prepareField ty idf st k mf0).result
      = st.result
        ++ ((entryFor ty idf (getField st.globalFields k) (getField st.actionFields k)
              k mf0).map fun e => (k, e)).toList := by
  rw [prepareField]
  by_cases h : ty = "add" ∧ k = idf
  · rw [if_pos h, entryFor, if_pos h]
    simp
  · rw [if_neg h]
    rcases he : entryFor ty idf (getField st.globalFields k) (getField st.actionFields k)
        k mf0 with _ | e
    · simp [he]
    · simp [he]

theorem prepareField_globalFields (ty idf : String) (st : ResolveState) (k : String)
    (mf0 : JsVal) :
    (prepareField ty idf st k mf0).globalFields
      = if ty = "add" ∧ k = idf then st.globalFields
        else mutateMap st.globalFields k := by
  rw [prepareField]
  by_cases h : ty = "add" ∧ k = idf
  · rw [if_pos h, if_pos h]
  · rw [if_neg h, if_neg h]
    rcases he : entryFor ty idf (getField st.globalFields k) (getField st.actionFields k)
        k mf0 with _ | e <;> simp [he]

theorem prepareField_actionFields (ty idf : String) (st : ResolveState) (k : String)
    (mf0 : JsVal) :
    (prepareField ty idf st k mf0).actionFields
      = if ty = "add" ∧ k = idf then st.actionFields
        else mutateMap st.actionFields k := by
  rw [prepareField]
  by_cases h : ty = "add" ∧ k = idf
  · rw [if_pos h, if_pos h]
  · rw [if_neg h, if_neg h]
    rcases he : entryFor ty idf (getField st.globalFields k) (getField st.actionFields k)
        k mf0 with _ | e <;> simp [he]

/-! Characterization of the whole `_.forEach(modelAttributes, _prepareField)`
iteration: with unique attribute keys, the result map is a `filterMap` of the
per-key `entryFor` over the original override maps, and each override map
changes pointwise by at most one `overrideAfter` application at its own
key. -/

theorem getFieldsAux_result (ty idf : String) (g0 a0 : JsFields) :
    ∀ (l : JsFields) (st : ResolveState),
      (l.map Prod.fst).Nodup →
      (∀ p, p ∈ l.map Prod.fst →
        getField st.globalFields p = getField g0 p ∧
        getField st.actionFields p = getField a0 p) →
      (getFieldsAux ty idf l st).result
        = st.result ++ l.filterMap (fun kv =>
            (entryFor ty idf (getField g0 kv.1) (getField a0 kv.1) kv.1 kv.2).map
              fun e => (kv.1, e)) := by
  intro l
  induction l with
  | nil =>
      intro st _ _
      simp [getFieldsAux]
  | cons kv rest ih =>
      obtain ⟨k, v⟩ := kv
      intro st hnd hagree
      rw [List.map_cons, List.nodup_cons] at hnd
      have hk := hagree k (by simp)
      have hagree1 : ∀ p, p ∈ rest.map Prod.fst →
          getField (prepareField ty idf st k v).globalFields p = getField g0 p ∧
          getField (prepareField ty idf st k v).actionFields p = getField a0 p := by
        intro p hp
        have hpk : p ≠ k := fun hh => hnd.1 (hh ▸ hp)
        rw [prepareField_globalFields, prepareField_actionFields]
        by_cases hskip : ty = "add" ∧ k = idf
        · rw [if_pos hskip, if_pos hskip]
          exact hagree p (by simp [hp])
        · rw [if_neg hskip, if_neg hskip, mutateMap_getField_ne _ _ _ hpk,
            mutateMap_getField_ne _ _ _ hpk]
          exact hagree p (by simp [hp])
      rw [getFieldsAux, ih (prepareField ty idf st k v) hnd.2 hagree1,
        prepareField_result, hk.1, hk.2, List.filterMap_cons]
      rcases he : entryFor ty idf (getField g0 k) (getField a0 k) k v with _ | e
      · simp [he]
      · simp [he]

theorem getFieldsAux_globalFields (ty idf : String) (g0 : JsFields) :
    ∀ (l : JsFields) (st : ResolveState),
      (l.map Prod.fst).Nodup →
      (∀ p, p ∈ l.map Prod.fst → getField st.globalFields p = getField g0 p) →
      ∀ p, getField (getFieldsAux ty idf l st).globalFields p
        = if p ∈ l.map Prod.fst ∧ ¬(ty = "add" ∧ p = idf)
          then overrideAfter (getField g0 p) p
          else getField st.globalFields p := by
  intro l
  induction l with
  | nil =>
      intro st _ _ p
      simp [getFieldsAux]
  | cons kv rest ih =>
      obtain ⟨k, v⟩ := kv
      intro st hnd hagree p
      rw [List.map_cons, List.nodup_cons] at hnd
      have hstep : (prepareField ty idf st k v).globalFields
          = if ty = "add" ∧ k = idf then st.globalFields
            else mutateMap st.globalFields k := prepareField_globalFields ty idf st k v
      have hagree1 : ∀ q, q ∈ rest.map Prod.fst →
          getField (prepareField ty idf st k v).globalFields q = getField g0 q := by
        intro q hq
        have hqk : q ≠ k := fun hh => hnd.1 (hh ▸ hq)
        rw [hstep]
        by_cases hskip : ty = "add" ∧ k = idf
        · rw [if_pos hskip]; exact hagree q (by simp [hq])
        · rw [if_neg hskip, mutateMap_getField_ne _ _ _ hqk]
          exact hagree q (by simp [hq])
      rw [getFieldsAux, ih (prepareField ty idf st k v) hnd.2 hagree1 p]
      by_cases hmem : p ∈ rest.map Prod.fst
      · have hpk : p ≠ k := fun hh => hnd.1 (hh ▸ hmem)
        by_cases hskip : ty = "add" ∧ p = idf
        · rw [if_neg (by tauto), if_neg (by tauto), hstep]
          by_cases hskipk : ty = "add" ∧ k = idf
          · rw [if_pos hskipk]
          · rw [if_neg hskipk, mutateMap_getField_ne _ _ _ hpk]
        · rw [if_pos ⟨hmem, hskip⟩, if_pos ⟨by simp [hmem], hskip⟩]
      · by_cases hpk : p = k
        · subst hpk
          rw [if_neg (by tauto), hstep]
          by_cases hskip : ty = "add" ∧ p = idf
          · rw [if_pos hskip, if_neg (by tauto)]
          · rw [if_neg hskip, if_pos ⟨by simp, hskip⟩, mutateMap_getField_self,
              hagree p (by simp)]
        · rw [if_neg (by tauto), if_neg (fun hh => by
            rcases hh with ⟨hh1, _⟩
            rw [List.map_cons, List.mem_cons] at hh1
            tauto), hstep]
          by_cases hskipk : ty = "add" ∧ k = idf
          · rw [if_pos hskipk]
          · rw [if_neg hskipk, mutateMap_getField_ne _ _ _ hpk]

theorem getFieldsAux_actionFields (ty idf : String) (a0 : JsFields) :
    ∀ (l : JsFields) (st : ResolveState),
      (l.map Prod.fst).Nodup →
      (∀ p, p ∈ l.map Prod.fst → getField st.actionFields p = getField a0 p) →
      ∀ p, getField (getFieldsAux ty idf l st).actionFields p
        = if p ∈ l.map Prod.fst ∧ ¬(ty = "add" ∧ p = idf)
          then overrideAfter (getField a0 p) p
          else getField st.actionFields p := by
  intro l
  induction l with
  | nil =>
      intro st _ _ p
      simp [getFieldsAux]
  | cons kv rest ih =>
      obtain ⟨k, v⟩ := kv
      intro st hnd hagree p
      rw [List.map_cons, List.nodup_cons] at hnd
      have hstep : (prepareField ty idf st k v).actionFields
          = if ty = "add" ∧ k = idf then st.actionFields
            else mutateMap st.actionFields k := prepareField_actionFields ty idf st k v
      have hagree1 : ∀ q, q ∈ rest.map Prod.fst →
          getField (prepareField ty idf st k v).actionFields q = getField a0 q := by
        intro q hq
        have hqk : q ≠ k := fun hh => hnd.1 (hh ▸ hq)
        rw [hstep]
        by_cases hskip : ty = "add" ∧ k = idf
        · rw [if_pos hskip]; exact hagree q (by simp [hq])
        · rw [if_neg hskip, mutateMap_getField_ne _ _ _ hqk]
          exact hagree q (by simp [hq])
      rw [getFieldsAux, ih (prepareField ty idf st k v) hnd.2 hagree1 p]
      by_cases hmem : p ∈ rest.map Prod.fst
      · have hpk : p ≠ k := fun hh => hnd.1 (hh ▸ hmem)
        by_cases hskip : ty = "add" ∧ p = idf
        · rw [if_neg (by tauto), if_neg (by tauto), hstep]
          by_cases hskipk : ty = "add" ∧ k = idf
          · rw [if_pos hskipk]
          · rw [if_neg hskipk, mutateMap_getField_ne _ _ _ hpk]
        · rw [if_pos ⟨hmem, hskip⟩, if_pos ⟨by simp [hmem], hskip⟩]
      · by_cases hpk : p = k
        · subst hpk
          rw [if_neg (by tauto), hstep]
          by_cases hskip : ty = "add" ∧ p = idf
          · rw [if_pos hskip, if_neg (by tauto)]
          · rw [if_neg hskip, if_pos ⟨by simp, hskip⟩, mutateMap_getField_self,
              hagree p (by simp)]
        · rw [if_neg (by tauto), if_neg (fun hh => by
            rcases hh with ⟨hh1, _⟩
            rw [List.map_cons, List.mem_cons] at hh1
            tauto), hstep]
          by_cases hskipk : ty = "add" ∧ k = idf
          · rw [if_pos hskipk]
          · rw [if_neg hskipk, mutateMap_getField_ne _ _ _ hpk]

theorem getFieldsAux_globalFields_map_fst (ty idf : String) :
    ∀ (l : JsFields) (st : ResolveState),
      (getFieldsAux ty idf l st).globalFields.map Prod.fst
        = st.globalFields.map Prod.fst := by
  intro l
  induction l with
  | nil => intro st; rfl
  | cons kv rest ih =>
      obtain ⟨k, v⟩ := kv
      intro st
      rw [getFieldsAux, ih, prepareField_globalFields]
      by_cases hskip : ty = "add" ∧ k = idf
      · rw [if_pos hskip]
      · rw [if_neg hskip, mutateMap_map_fst]

theorem getFieldsAux_actionFields_map_fst (ty idf : String) :
    ∀ (l : JsFields) (st : ResolveState),
      (getFieldsAux ty idf l st).actionFields.map Prod.fst
        = st.actionFields.map Prod.fst := by
  intro l
  induction l with
  | nil => intro st; rfl
  | cons kv rest ih =>
      obtain ⟨k, v⟩ := kv
      intro st
      rw [getFieldsAux, ih, prepareField_actionFields]
      by_cases hskip : ty = "add" ∧ k = idf
      · rw [if_pos hskip]
      · rw [if_neg hskip, mutateMap_map_fst]

theorem pickAttrs_keys_nodup (attrs : JsFields) (h : (attrs.map Prod.fst).Nodup) :
    ((pickAttrs attrs).map Prod.fst).Nodup :=
  List.Nodup.sublist (List.Sublist.map Prod.fst (List.filter_sublist attrs)) h

theorem getFields_result (attrs g a : JsFields) (ty0 : Option String) (idf : String)
    (hnd : (attrs.map Prod.fst).Nodup) :
    (getFields attrs g a ty0 idf).result
      = (pickAttrs attrs).filterMap (fun kv =>
          (entryFor (effectiveType ty0) idf (getField g kv.1) (getField a kv.1)
            kv.1 kv.2).map fun e => (kv.1, e)) := by
  rw [getFields]
  have := getFieldsAux_result (effectiveType ty0) idf g a (pickAttrs attrs)
    ⟨[], g, a⟩ (pickAttrs_keys_nodup attrs hnd) (fun p _ => ⟨rfl, rfl⟩)
  simpa using this

/-! Lookup lemmas for the result map. -/

theorem getEntry_filterMap_not_mem (l : JsFields)
    (f : String → JsVal → Option ResolvedEntry) (k : String)
    (h : k ∉ l.map Prod.fst) :
    getEntry (l.filterMap fun kv => (f kv.1 kv.2).map fun e => (kv.1, e)) k = none := by
  induction l with
  | nil => rfl
  | cons kv rest ih =>
      obtain ⟨k1, v1⟩ := kv
      rw [List.map_cons, List.mem_cons] at h
      push_neg at h
      have hne : ¬(k1 = k) := fun hh => h.1 hh.symm
      rw [List.filterMap_cons]
      rcases hf : f k1 v1 with _ | e
      · simpa using ih h.2
      · simpa [getEntry, hne] using ih h.2

theorem getEntry_filterMap (l : JsFields)
    (f : String → JsVal → Option ResolvedEntry) (k : String) (mf : JsVal)
    (hnd : (l.map Prod.fst).Nodup) (hmem : (k, mf) ∈ l) :
    getEntry (l.filterMap fun kv => (f kv.1 kv.2).map fun e => (kv.1, e)) k = f k mf := by
  induction l with
  | nil => simp at hmem
  | cons kv rest ih =>
      obtain ⟨k1, v1⟩ := kv
      rw [List.map_cons, List.nodup_cons] at hnd
      rw [List.mem_cons] at hmem
      rcases hmem with hmem | hmem
      · cases hmem
        rw [List.filterMap_cons]
        rcases hf : f k mf with _ | e
        · simpa [hf] using getEntry_filterMap_not_mem rest f k hnd.1
        · simp [hf, getEntry]
      · have hkrest : k ∈ rest.map Prod.fst := List.mem_map_of_mem Prod.fst hmem
        have hk1 : ¬(k1 = k) := fun hh => hnd.1 (hh ▸ hkrest)
        rw [List.filterMap_cons]
        rcases hf : f k1 v1 with _ | e
        · simpa [hf] using ih hnd.2 hmem
        · simpa [hf, getEntry, hk1] using ih hnd.2 hmem

theorem getEntry_filterMap_some (l : JsFields)
    (f : String → JsVal → Option ResolvedEntry) (k : String) (e : ResolvedEntry)
    (h : getEntry (l.filterMap fun kv => (f kv.1 kv.2).map fun e1 => (kv.1, e1)) k
      = some e) :
    ∃ mf, (k, mf) ∈ l ∧ f k mf = some e := by
  induction l with
  | nil => simp [getEntry] at h
  | cons kv rest ih =>
      obtain ⟨k1, v1⟩ := kv
      rw [List.filterMap_cons] at h
      rcases hf : f k1 v1 with _ | e1
      · rw [hf] at h
        simp only [Option.map_none] at h
        obtain ⟨mf, hmem, hfm⟩ := ih h
        exact ⟨mf, List.mem_cons_of_mem _ hmem, hfm⟩
      · rw [hf] at h
        simp only [Option.map_some] at h
        by_cases hk : k1 = k
        · subst hk
          simp only [getEntry, if_pos rfl] at h
          cases h
          exact ⟨v1, List.mem_cons_self _ _, hf⟩
        · simp only [getEntry, if_neg hk] at h
          obtain ⟨mf, hmem, hfm⟩ := ih h
          exact ⟨mf, List.mem_cons_of_mem _ hmem, hfm⟩

/-! Claim theorems. -/

/-- C3: for every non-empty string key `k`, the normalizer behaves per
notation: `true` gives `{key: k, title: k}`, `false` gives the sentinel
`false`, a string `s` gives `{key: k, title: s}`, and every defined value
that is neither a boolean, nor a string, nor a plain object gives `false`. -/
theorem C3_notation_dispatch (k : String) (hk : k ≠ "") :
    _normalizeFieldConfig (JsVal.bool true) (JsVal.str k)
        = Except.ok (JsVal.obj [("key", JsVal.str k), ("title", JsVal.str k)])
      ∧ _normalizeFieldConfig (JsVal.bool false) (JsVal.str k)
        = Except.ok (JsVal.bool false)
      ∧ (∀ s : String, _normalizeFieldConfig (JsVal.str s) (JsVal.str k)
        = Except.ok (JsVal.obj [("key", JsVal.str k), ("title", JsVal.str s)]))
      ∧ (∀ raw : JsVal, raw ≠ JsVal.undefined → raw.isBoolean = false →
          raw.isString = false → raw.isPlainObject = false →
          _normalizeFieldConfig raw (JsVal.str k) = Except.ok (JsVal.bool false)) := by
  refine ⟨?_, ?_, ?_, ?_⟩
  · rw [_normalizeFieldConfig, if_neg (by simp), normBody, if_pos rfl]
  · rw [_normalizeFieldConfig, if_neg (by simp), normBody, if_neg (by simp)]
  · intro s
    rw [_normalizeFieldConfig, if_neg (by simp), normBody]
  · intro raw hu hb hs ho
    cases raw with
    | undefined => exact absurd rfl hu
    | bool b => simp [JsVal.isBoolean] at hb
    | str s => simp [JsVal.isString] at hs
    | obj fs => simp [JsVal.isPlainObject] at ho
    | null => rfl
    | nan => rfl
    | num n => rfl

/-- Witness for C3 at the concrete key `name` and the concrete
invalid-shaped raw value `null`. -/
theorem C3_notation_dispatch_witness :
    _normalizeFieldConfig JsVal.null (JsVal.str "name") = Except.ok (JsVal.bool false) :=
  (C3_notation_dispatch "name" (by decide)).2.2.2 JsVal.null (by decide) rfl rfl rfl

/-- C4 counterexample: the claim says a `key` property already present in
the object is left untouched, but the source tests `!config.key`, so a
present-but-falsy `key` (here the empty string) is overwritten with the
field key; the claimed output `{key: "", title: "name"}` is not produced. -/
theorem C4_cex :
    _normalizeFieldConfig (JsVal.obj [("key", JsVal.str "")]) (JsVal.str "name")
        = Except.ok (JsVal.obj [("key", JsVal.str "name"), ("title", JsVal.str "name")])
      ∧ _normalizeFieldConfig (JsVal.obj [("key", JsVal.str "")]) (JsVal.str "name")
        ≠ Except.ok (JsVal.obj [("key", JsVal.str ""), ("title", JsVal.str "name")]) := by
  constructor
  · rfl
  · decide

/-- C4 amended: on a plain object the normalizer returns the object with
`key` set to `k` when the existing `key` is absent or falsy (otherwise kept),
`title` set to `k` when the existing `title` is absent or falsy (otherwise
kept), and every property other than `key` and `title` passed through
unmodified. -/
theorem C4_object_passthrough (fs : JsFields) (k : String) :
    ∃ fs2, _normalizeFieldConfig (JsVal.obj fs) (JsVal.str k) = Except.ok (JsVal.obj fs2)
      ∧ getField fs2 "key"
          = (if (getField fs "key").truthy then getField fs "key" else JsVal.str k)
      ∧ getField fs2 "title"
          = (if (getField fs "title").truthy then getField fs "title" else JsVal.str k)
      ∧ ∀ p, p ≠ "key" → p ≠ "title" → getField fs2 p = getField fs p := by
  obtain ⟨fs2, hfs2⟩ := exists_obj_of_isPlainObject _
    (normBody_obj_isPlainObject fs (JsVal.str k))
  refine ⟨fs2, ?_, ?_, ?_, ?_⟩
  · rw [_normalizeFieldConfig, if_neg (by simp), hfs2]
  · have := normBody_obj_getProp_key fs (JsVal.str k)
    rw [hfs2, JsVal.getProp] at this
    exact this
  · have := normBody_obj_getProp_title fs (JsVal.str k)
    rw [hfs2, JsVal.getProp] at this
    exact this
  · intro p hp1 hp2
    have := normBody_obj_getProp_other fs (JsVal.str k) p hp1 hp2
    rw [hfs2, JsVal.getProp] at this
    exact this

/-- Witness for C4 amended at the object override `{editor: true}` and key
`bio`. -/
theorem C4_object_passthrough_witness :
    ∃ fs2, _normalizeFieldConfig (JsVal.obj [("editor", JsVal.bool true)])
        (JsVal.str "bio") = Except.ok (JsVal.obj fs2)
      ∧ getField fs2 "key"
          = (if (getField [("editor", JsVal.bool true)] "key").truthy
             then getField [("editor", JsVal.bool true)] "key" else JsVal.str "bio")
      ∧ getField fs2 "title"
          = (if (getField [("editor", JsVal.bool true)] "title").truthy
             then getField [("editor", JsVal.bool true)] "title" else JsVal.str "bio")
      ∧ ∀ p, p ≠ "key" → p ≠ "title" →
          getField fs2 p = getField [("editor", JsVal.bool true)] p :=
  C4_object_passthrough [("editor", JsVal.bool true)] "bio"

/-- C6: the normalizer errors exactly when `config` or `key` is undefined,
and on defined arguments it returns a value (the error, when raised, is the
function's result and so propagates to the caller). -/
theorem C6_invalid_argument (raw key : JsVal) :
    (_normalizeFieldConfig raw key = Except.error "No config or key passed !"
        ↔ raw = JsVal.undefined ∨ key = JsVal.undefined)
      ∧ (raw ≠ JsVal.undefined → key ≠ JsVal.undefined →
          _normalizeFieldConfig raw key = Except.ok (normBody raw key)) := by
  constructor
  · constructor
    · intro h
      by_contra hc
      push_neg at hc
      rw [_normalizeFieldConfig, if_neg (by tauto)] at h
      simp at h
    · intro h
      rw [_normalizeFieldConfig, if_pos h]
  · intro h1 h2
    rw [_normalizeFieldConfig, if_neg (by tauto)]

/-- Witness for C6: defined arguments succeed, an undefined `config`
errors. -/
theorem C6_invalid_argument_witness :
    _normalizeFieldConfig (JsVal.bool true) (JsVal.str "email")
      = Except.ok (normBody (JsVal.bool true) (JsVal.str "email"))
    ∧ _normalizeFieldConfig JsVal.undefined (JsVal.str "email")
      = Except.error "No config or key passed !" :=
  ⟨(C6_invalid_argument (JsVal.bool true) (JsVal.str "email")).2 (by decide) (by decide),
    (C6_invalid_argument JsVal.undefined (JsVal.str "email")).1.mpr (Or.inl rfl)⟩

theorem getEntry_append_none (l1 l2 : List (String × ResolvedEntry)) (p : String)
    (h : getEntry l1 p = none) : getEntry (l1 ++ l2) p = getEntry l2 p := by
  induction l1 with
  | nil => rfl
  | cons ke rest ih =>
      obtain ⟨k, e⟩ := ke
      simp only [getEntry] at h
      by_cases hk : k = p
      · rw [if_pos hk] at h
        exact absurd h (by simp)
      · rw [if_neg hk] at h
        rw [List.cons_append]
        simp only [getEntry, if_neg hk]
        exact ih h

theorem getFieldsAux_add_no_idf (idf : String) :
    ∀ (l : JsFields) (st : ResolveState), getEntry st.result idf = none →
      getEntry (getFieldsAux "add" idf l st).result idf = none := by
  intro l
  induction l with
  | nil => intro st h; exact h
  | cons kv rest ih =>
      obtain ⟨k, v⟩ := kv
      intro st h
      rw [getFieldsAux]
      apply ih
      rw [prepareField_result]
      by_cases hk : k = idf
      · subst hk
        have hnone : entryFor "add" k (getField st.globalFields k)
            (getField st.actionFields k) k v = none := by
          rw [entryFor, if_pos ⟨rfl, rfl⟩]
        rw [hnone]
        simpa using h
      · rcases he : entryFor "add" idf (getField st.globalFields k)
            (getField st.actionFields k) k v with _ | e
        · simp only [Option.map_none', Option.toList_none, List.append_nil]
          exact h
        · simp only [Option.map_some', Option.toList_some]
          rw [getEntry_append_none _ _ _ h]
          simp [getEntry, hk]

theorem entryFor_idf_independent (ty idf idf2 : String) (gv av : JsVal) (k : String)
    (mf0 : JsVal) (h : ty ≠ "add") :
    entryFor ty idf gv av k mf0 = entryFor ty idf2 gv av k mf0 := by
  have h1 : ¬(ty = "add" ∧ k = idf) := fun hh => h hh.1
  have h2 : ¬(ty = "add" ∧ k = idf2) := fun hh => h hh.1
  rw [entryFor, entryFor, if_neg h1, if_neg h2]

theorem prepareField_idf_independent (ty idf idf2 : String) (st : ResolveState)
    (k : String) (mf0 : JsVal) (h : ty ≠ "add") :
    prepareField ty idf st k mf0 = prepareField ty idf2 st k mf0 := by
  have h1 : ¬(ty = "add" ∧ k = idf) := fun hh => h hh.1
  have h2 : ¬(ty = "add" ∧ k = idf2) := fun hh => h hh.1
  simp only [prepareField]
  rw [if_neg h1, if_neg h2,
    entryFor_idf_independent ty idf idf2 (getField st.globalFields k)
      (getField st.actionFields k) k mf0 h]

theorem getFieldsAux_idf_independent (ty idf idf2 : String) (h : ty ≠ "add") :
    ∀ (l : JsFields) (st : ResolveState),
      getFieldsAux ty idf l st = getFieldsAux ty idf2 l st := by
  intro l
  induction l with
  | nil => intro st; rfl
  | cons kv rest ih =>
      obtain ⟨k, v⟩ := kv
      intro st
      rw [getFieldsAux, getFieldsAux, prepareField_idf_independent ty idf idf2 st k v h,
        ih]

/-- C7: for the `add` action the identifier attribute never appears in the
result, regardless of overrides; for every other action name the identifier
plays no role at all — the whole resolution is independent of the configured
identifier field. -/
theorem C7_identifier_exclusion (attrs g a : JsFields) (idf : String) :
    (getEntry (getFields attrs g a (some "add") idf).result idf = none)
    ∧ (∀ ty0 : Option String, effectiveType ty0 ≠ "add" → ∀ idf2 : String,
        getFields attrs g a ty0 idf = getFields attrs g a ty0 idf2) := by
  constructor
  · rw [getFields]
    exact getFieldsAux_add_no_idf idf (pickAttrs attrs) ⟨[], g, a⟩ rfl
  · intro ty0 hty idf2
    rw [getFields, getFields, getFieldsAux_idf_independent (effectiveType ty0) idf idf2 hty]

/-- Witness for C7: on a concrete model the `add` action drops the
identifier attribute even when both layers try to enable it, and a `list`
action resolution does not depend on the identifier name. -/
theorem C7_identifier_exclusion_witness :
    (getEntry (getFields [("id", JsVal.obj [("type", JsVal.str "string")])]
        [("id", JsVal.str "Identifier")] [("id", JsVal.bool true)]
        (some "add") "id").result "id" = none)
    ∧ getFields [("id", JsVal.obj [("type", JsVal.str "string")])] [] []
        (some "list") "id"
      = getFields [("id", JsVal.obj [("type", JsVal.str "string")])] [] []
        (some "list") "other" :=
  ⟨(C7_identifier_exclusion [("id", JsVal.obj [("type", JsVal.str "string")])]
      [("id", JsVal.str "Identifier")] [("id", JsVal.bool true)] "id").1,
    (C7_identifier_exclusion [("id", JsVal.obj [("type", JsVal.str "string")])]
      [] [] "id").2 (some "list") (by decide) "other"⟩

theorem truthy_ne_bool_false (v : JsVal) (h : v.truthy = true) : v ≠ JsVal.bool false := by
  intro hh
  rw [hh] at h
  exact absurd h (by decide)

theorem mergedConfig_C1_eval (k s : String) (hs : s ≠ "") :
    (mergedConfig (JsVal.bool false) (JsVal.str s) k).getProp "title" = JsVal.str s := by
  by_cases hk : k = ""
  · subst hk
    simp [mergedConfig, layerStep, normBody, lodashMerge, mergeFields, mergeProp,
      getField, setField, JsVal.truthy, JsVal.getProp, hs]
  · simp [mergedConfig, layerStep, normBody, lodashMerge, mergeFields, mergeProp,
      getField, setField, JsVal.truthy, JsVal.getProp, hs, hk]

theorem mergedConfig_C2_eval (k : String) :
    mergedConfig (JsVal.obj [("title", JsVal.str "A"), ("editor", JsVal.bool true)])
      (JsVal.obj [("title", JsVal.str "B")]) k
      = JsVal.obj [("key", JsVal.str k), ("title", JsVal.str "B"),
          ("editor", JsVal.bool true)] := by
  by_cases hk : k = ""
  · subst hk
    decide
  · simp [mergedConfig, layerStep, normBody, lodashMerge, mergeFields, mergeProp,
      getField, setField, JsVal.truthy, JsVal.getProp, hk]

/-- C1 counterexample: `null` is a defined, non-false action-level override,
yet it does not re-enable a field hidden by a global `false` — the action
branch requires a truthy value (or literal `false`), so `null` is skipped and
the global hide stands: the field is absent from the output. -/
theorem C1_cex :
    getEntry (getFields [("email", JsVal.obj [("type", JsVal.str "string")])]
      [("email", JsVal.bool false)] [("email", JsVal.null)]
      (some "list") "id").result "email" = none := by
  decide

/-- C1 amended: a truthy action-level override (rather than any non-false
defined one) re-enables a field hidden at the global layer, and when that
override is a string it becomes the resolved title. -/
theorem C1_action_unhides (attrs g a : JsFields) (ty0 : Option String)
    (idf k : String) (mf0 : JsVal)
    (hnd : (attrs.map Prod.fst).Nodup)
    (hmem : (k, mf0) ∈ pickAttrs attrs)
    (hskip : ¬(effectiveType ty0 = "add" ∧ k = idf))
    (hg : getField g k = JsVal.bool false)
    (ha : (getField a k).truthy = true) :
    ∃ e, getEntry (getFields attrs g a ty0 idf).result k = some e
      ∧ (∀ s : String, getField a k = JsVal.str s →
          e.config.getProp "title" = JsVal.str s) := by
  rw [getFields_result attrs g a ty0 idf hnd,
    getEntry_filterMap (pickAttrs attrs)
      (fun x y => entryFor (effectiveType ty0) idf (getField g x) (getField a x) x y)
      k mf0 (pickAttrs_keys_nodup attrs hnd) hmem]
  have hig : resolvedIgnore (getField g k) (getField a k) = false := by
    rw [resolvedIgnore, if_neg (truthy_ne_bool_false _ ha), if_pos ha]
  rw [entryFor, if_neg hskip, hig]
  refine ⟨_, by rw [if_neg (by simp)], ?_⟩
  intro s hs
  have hsne : s ≠ "" := by
    rw [hs] at ha
    simpa [JsVal.truthy] using ha
  show (finalConfig (getField g k) (getField a k) k (coerceModelField mf0)).getProp
      "title" = JsVal.str s
  rw [finalConfig_getProp_other _ _ _ _ _ (by decide) (by decide), hg, hs,
    mergedConfig_C1_eval k s hsne]

/-- Witness for C1 amended, at the spec example: global `false`, action
override the string `Custom Title`. -/
theorem C1_action_unhides_witness :
    ∃ e, getEntry (getFields [("email", JsVal.obj [("type", JsVal.str "string")])]
        [("email", JsVal.bool false)] [("email", JsVal.str "Custom Title")]
        (some "list") "id").result "email" = some e
      ∧ (∀ s : String,
          getField [("email", JsVal.str "Custom Title")] "email" = JsVal.str s →
          e.config.getProp "title" = JsVal.str s) :=
  C1_action_unhides [("email", JsVal.obj [("type", JsVal.str "string")])]
    [("email", JsVal.bool false)] [("email", JsVal.str "Custom Title")]
    (some "list") "id" "email" (JsVal.obj [("type", JsVal.str "string")])
    (by decide) (by decide) (by decide) rfl rfl

/-- C2: when both layers supply object overrides for the same key the layers
are merged rather than replaced: with global `{title: "A", editor: true}` and
action `{title: "B"}` the resolved config carries the action title `B` and
keeps the global-only `editor: true`. -/
theorem C2_layer_merge (attrs g a : JsFields) (ty0 : Option String)
    (idf k : String) (mf0 : JsVal)
    (hnd : (attrs.map Prod.fst).Nodup)
    (hmem : (k, mf0) ∈ pickAttrs attrs)
    (hskip : ¬(effectiveType ty0 = "add" ∧ k = idf))
    (hg : getField g k = JsVal.obj [("title", JsVal.str "A"), ("editor", JsVal.bool true)])
    (ha : getField a k = JsVal.obj [("title", JsVal.str "B")]) :
    ∃ e, getEntry (getFields attrs g a ty0 idf).result k = some e
      ∧ e.config.getProp "title" = JsVal.str "B"
      ∧ e.config.getProp "editor" = JsVal.bool true := by
  rw [getFields_result attrs g a ty0 idf hnd,
    getEntry_filterMap (pickAttrs attrs)
      (fun x y => entryFor (effectiveType ty0) idf (getField g x) (getField a x) x y)
      k mf0 (pickAttrs_keys_nodup attrs hnd) hmem]
  have hat : (getField a k).truthy = true := by rw [ha]; rfl
  have hig : resolvedIgnore (getField g k) (getField a k) = false := by
    rw [resolvedIgnore, if_neg (truthy_ne_bool_false _ hat), if_pos hat]
  rw [entryFor, if_neg hskip, hig]
  refine ⟨_, by rw [if_neg (by simp)], ?_, ?_⟩
  · show (finalConfig (getField g k) (getField a k) k (coerceModelField mf0)).getProp
        "title" = JsVal.str "B"
    rw [finalConfig_getProp_other _ _ _ _ _ (by decide) (by decide), hg, ha,
      mergedConfig_C2_eval k, JsVal.getProp]
    rfl
  · show (finalConfig (getField g k) (getField a k) k (coerceModelField mf0)).getProp
        "editor" = JsVal.bool true
    rw [finalConfig_getProp_other _ _ _ _ _ (by decide) (by decide), hg, ha,
      mergedConfig_C2_eval k, JsVal.getProp]
    rfl

/-- Witness for C2 at a concrete `bio` attribute of type `text`. -/
theorem C2_layer_merge_witness :
    ∃ e, getEntry (getFields [("bio", JsVal.obj [("type", JsVal.str "text")])]
        [("bio", JsVal.obj [("title", JsVal.str "A"), ("editor", JsVal.bool true)])]
        [("bio", JsVal.obj [("title", JsVal.str "B")])]
        (some "edit") "id").result "bio" = some e
      ∧ e.config.getProp "title" = JsVal.str "B"
      ∧ e.config.getProp "editor" = JsVal.bool true :=
  C2_layer_merge [("bio", JsVal.obj [("type", JsVal.str "text")])]
    [("bio", JsVal.obj [("title", JsVal.str "A"), ("editor", JsVal.bool true)])]
    [("bio", JsVal.obj [("title", JsVal.str "B")])]
    (some "edit") "id" "bio" (JsVal.obj [("type", JsVal.str "text")])
    (by decide) (by decide) (by decide) rfl rfl

theorem overrideAfter_eq_self (v : JsVal) (k : String)
    (h : ¬(v.truthy = true ∧ v.isPlainObject = true
        ∧ ¬(((v.getProp "key").truthy = true) ∧ ((v.getProp "title").truthy = true)))) :
    overrideAfter v k = v := by
  rw [overrideAfter]
  by_cases hc : (v.truthy && v.isPlainObject) = true
  · rw [if_pos hc]
    rw [Bool.and_eq_true] at hc
    obtain ⟨fs, rfl⟩ := exists_obj_of_isPlainObject v hc.2
    have hkt : ((JsVal.obj fs).getProp "key").truthy = true
        ∧ ((JsVal.obj fs).getProp "title").truthy = true := by
      by_contra hc2
      exact h ⟨hc.1, hc.2, hc2⟩
    rw [JsVal.getProp] at hkt
    exact normBody_obj_fixpoint fs (JsVal.str k) hkt.1 hkt.2
  · rw [if_neg hc]

/-- C5 counterexample: resolving a model with a plain-object global override
that lacks `key`/`title` mutates the caller-supplied global override map in
place (the normalizer injects `key` and `title` into the stored object). -/
theorem C5_cex :
    (getFields [("bio", JsVal.obj [("type", JsVal.str "text")])]
        [("bio", JsVal.obj [("editor", JsVal.bool true)])] [] (some "list") "id").globalFields
      ≠ [("bio", JsVal.obj [("editor", JsVal.bool true)])]
    ∧ (getFields [("bio", JsVal.obj [("type", JsVal.str "text")])]
        [("bio", JsVal.obj [("editor", JsVal.bool true)])] [] (some "list") "id").globalFields
      = [("bio", JsVal.obj [("editor", JsVal.bool true), ("key", JsVal.str "bio"),
          ("title", JsVal.str "bio")])] := by
  constructor
  · decide
  · decide

/-- C5 amended: the resolver adds or removes no entries of the
caller-supplied override maps, and each stored override value is either
unchanged or replaced in place by itself with `key`/`title` injected
(`overrideAfter`); in particular a stored value that is not a truthy plain
object, or that already carries truthy `key` and `title`, is unchanged.
Only the normalizer's in-place `key`/`title` injection mutates caller
state; the merge itself targets the fresh working config. -/
theorem C5_mutation_scope (attrs g a : JsFields) (ty0 : Option String) (idf : String)
    (hnd : (attrs.map Prod.fst).Nodup) :
    ((getFields attrs g a ty0 idf).globalFields.map Prod.fst = g.map Prod.fst)
    ∧ ((getFields attrs g a ty0 idf).actionFields.map Prod.fst = a.map Prod.fst)
    ∧ (∀ p, getField (getFields attrs g a ty0 idf).globalFields p = getField g p
        ∨ getField (getFields attrs g a ty0 idf).globalFields p
          = overrideAfter (getField g p) p)
    ∧ (∀ p, getField (getFields attrs g a ty0 idf).actionFields p = getField a p
        ∨ getField (getFields attrs g a ty0 idf).actionFields p
          = overrideAfter (getField a p) p)
    ∧ (∀ p, ¬((getField g p).truthy = true ∧ (getField g p).isPlainObject = true
          ∧ ¬((((getField g p).getProp "key").truthy = true)
              ∧ (((getField g p).getProp "title").truthy = true))) →
        getField (getFields attrs g a ty0 idf).globalFields p = getField g p)
    ∧ (∀ p, ¬((getField a p).truthy = true ∧ (getField a p).isPlainObject = true
          ∧ ¬((((getField a p).getProp "key").truthy = true)
              ∧ (((getField a p).getProp "title").truthy = true))) →
        getField (getFields attrs g a ty0 idf).actionFields p = getField a p) := by
  have hgl := getFieldsAux_globalFields (effectiveType ty0) idf g (pickAttrs attrs)
    ⟨[], g, a⟩ (pickAttrs_keys_nodup attrs hnd) (fun p _ => rfl)
  have hal := getFieldsAux_actionFields (effectiveType ty0) idf a (pickAttrs attrs)
    ⟨[], g, a⟩ (pickAttrs_keys_nodup attrs hnd) (fun p _ => rfl)
  have hor : ∀ p, getField (getFields attrs g a ty0 idf).globalFields p = getField g p
      ∨ getField (getFields attrs g a ty0 idf).globalFields p
        = overrideAfter (getField g p) p := by
    intro p
    rw [getFields, hgl p]
    by_cases hc : p ∈ (pickAttrs attrs).map Prod.fst
        ∧ ¬(effectiveType ty0 = "add" ∧ p = idf)
    · rw [if_pos hc]; exact Or.inr rfl
    · rw [if_neg hc]; exact Or.inl rfl
  have hor2 : ∀ p, getField (getFields attrs g a ty0 idf).actionFields p = getField a p
      ∨ getField (getFields attrs g a ty0 idf).actionFields p
        = overrideAfter (getField a p) p := by
    intro p
    rw [getFields, hal p]
    by_cases hc : p ∈ (pickAttrs attrs).map Prod.fst
        ∧ ¬(effectiveType ty0 = "add" ∧ p = idf)
    · rw [if_pos hc]; exact Or.inr rfl
    · rw [if_neg hc]; exact Or.inl rfl
  refine ⟨?_, ?_, hor, hor2, ?_, ?_⟩
  · rw [getFields, getFieldsAux_globalFields_map_fst]
  · rw [getFields, getFieldsAux_actionFields_map_fst]
  · intro p hp
    rcases hor p with h | h
    · exact h
    · rw [h, overrideAfter_eq_self _ _ hp]
  · intro p hp
    rcases hor2 p with h | h
    · exact h
    · rw [h, overrideAfter_eq_self _ _ hp]

/-- Witness for C5 amended at a concrete resolution: keys of the global map
are preserved and a non-object override is untouched. -/
theorem C5_mutation_scope_witness :
    (getFields [("bio", JsVal.obj [("type", JsVal.str "text")])]
        [("bio", JsVal.str "Bio")] [] (some "list") "id").globalFields.map Prod.fst
      = [("bio", JsVal.str "Bio")].map Prod.fst
    ∧ getField (getFields [("bio", JsVal.obj [("type", JsVal.str "text")])]
        [("bio", JsVal.str "Bio")] [] (some "list") "id").globalFields "bio"
      = getField [("bio", JsVal.str "Bio")] "bio" :=
  ⟨(C5_mutation_scope [("bio", JsVal.obj [("type", JsVal.str "text")])]
      [("bio", JsVal.str "Bio")] [] (some "list") "id" (by decide)).1,
    (C5_mutation_scope [("bio", JsVal.obj [("type", JsVal.str "text")])]
      [("bio", JsVal.str "Bio")] [] (some "list") "id" (by decide)).2.2.2.2.1 "bio"
      (by decide)⟩

/-- Analysis of a successful result-map lookup: the entry comes from a
picked model attribute that was neither skipped as the `add`-action
identifier nor ignored, and its config is `finalConfig` of the two override
values at its key. -/
theorem getEntry_getFields_some (attrs g a : JsFields) (ty0 : Option String)
    (idf k : String) (e : ResolvedEntry)
    (hnd : (attrs.map Prod.fst).Nodup)
    (he : getEntry (getFields attrs g a ty0 idf).result k = some e) :
    ∃ mf0, (k, mf0) ∈ pickAttrs attrs
      ∧ ¬(effectiveType ty0 = "add" ∧ k = idf)
      ∧ resolvedIgnore (getField g k) (getField a k) = false
      ∧ e = ⟨finalConfig (getField g k) (getField a k) k (coerceModelField mf0),
          coerceModelField mf0⟩ := by
  rw [getFields_result attrs g a ty0 idf hnd] at he
  obtain ⟨mf0, hmem, hf⟩ := getEntry_filterMap_some (pickAttrs attrs)
    (fun x y => entryFor (effectiveType ty0) idf (getField g x) (getField a x) x y)
    k e he
  rw [entryFor] at hf
  by_cases hskip : effectiveType ty0 = "add" ∧ k = idf
  · rw [if_pos hskip] at hf
    exact absurd hf (by simp)
  · rw [if_neg hskip] at hf
    by_cases hig : resolvedIgnore (getField g k) (getField a k) = true
    · rw [if_pos hig] at hf
      exact absurd hf (by simp)
    · rw [if_neg hig] at hf
      cases hf
      exact ⟨mf0, hmem, hskip, by simpa using hig, rfl⟩

/-- C8: for every emitted entry, the `required` flag is the boolean of the
JavaScript disjunction of the merged config's `required` and the model
attribute's `required` (either side can force it, neither can un-force the
other), and `type` is the merged config's `type` when truthy, otherwise the
model's declared type; in particular a bare string attribute `"string"` with
no overrides resolves to type `string` and required `false`. -/
theorem C8_required_type_rule (attrs g a : JsFields) (ty0 : Option String)
    (idf : String) (hnd : (attrs.map Prod.fst).Nodup) :
    (∀ k e, getEntry (getFields attrs g a ty0 idf).result k = some e →
      e.config.getProp "required"
          = JsVal.bool
              (((mergedConfig (getField g k) (getField a k) k).getProp "required").truthy
               || (e.model.getProp "required").truthy)
        ∧ e.config.getProp "type"
          = (if ((mergedConfig (getField g k) (getField a k) k).getProp "type").truthy
              then (mergedConfig (getField g k) (getField a k) k).getProp "type"
              else e.model.getProp "type"))
    ∧ getEntry (getFields [("name", JsVal.str "string")] [] [] (some "list") "id").result
        "name"
      = some ⟨JsVal.obj [("key", JsVal.str "name"), ("title", JsVal.str "name"),
          ("required", JsVal.bool false), ("type", JsVal.str "string")],
        JsVal.obj [("type", JsVal.str "string")]⟩ := by
  constructor
  · intro k e he
    obtain ⟨mf0, _, _, _, rfl⟩ := getEntry_getFields_some attrs g a ty0 idf k e hnd he
    constructor
    · show (finalConfig (getField g k) (getField a k) k (coerceModelField mf0)).getProp
          "required" = _
      rw [finalConfig_getProp_required]
    · show (finalConfig (getField g k) (getField a k) k (coerceModelField mf0)).getProp
          "type" = _
      rw [finalConfig_getProp_type]
  · decide

/-- Witness for C8 at a model attribute with `required: true` and type
`number` and no overrides. -/
theorem C8_required_type_rule_witness :
    (JsVal.obj [("key", JsVal.str "x"), ("title", JsVal.str "x"),
        ("required", JsVal.bool true), ("type", JsVal.str "number")]).getProp "required"
      = JsVal.bool
          (((mergedConfig (getField [] "x") (getField [] "x") "x").getProp
              "required").truthy
           || ((JsVal.obj [("required", JsVal.bool true),
                ("type", JsVal.str "number")]).getProp "required").truthy) :=
  ((C8_required_type_rule
      [("x", JsVal.obj [("required", JsVal.bool true), ("type", JsVal.str "number")])]
      [] [] (some "list") "id" (by decide)).1 "x"
    ⟨JsVal.obj [("key", JsVal.str "x"), ("title", JsVal.str "x"),
        ("required", JsVal.bool true), ("type", JsVal.str "number")],
      JsVal.obj [("required", JsVal.bool true), ("type", JsVal.str "number")]⟩
    (by decide)).1

theorem truthy_ne_undefined (v : JsVal) (h : v.truthy = true) : v ≠ JsVal.undefined := by
  intro hh
  rw [hh] at h
  exact absurd h (by decide)

/-- C9 counterexample: with model attribute `a` declaring no type and a
global override `{title: 5}`, the emitted config's `title` is the number `5`
(not a string) and its `type` is `undefined` (not resolved), refuting the
claimed invariant that `title` is a string and `type` is always defined. -/
theorem C9_cex :
    getEntry (getFields [("a", JsVal.obj [])]
        [("a", JsVal.obj [("title", JsVal.num 5)])] [] (some "list") "id").result "a"
      = some ⟨JsVal.obj [("key", JsVal.str "a"), ("title", JsVal.num 5),
          ("required", JsVal.bool false), ("type", JsVal.undefined)], JsVal.obj []⟩
    ∧ ((JsVal.obj [("key", JsVal.str "a"), ("title", JsVal.num 5),
        ("required", JsVal.bool false), ("type", JsVal.undefined)]).getProp
          "title").isString = false
    ∧ (JsVal.obj [("key", JsVal.str "a"), ("title", JsVal.num 5),
        ("required", JsVal.bool false), ("type", JsVal.undefined)]).getProp "type"
      = JsVal.undefined := by
  refine ⟨by decide, by decide, by decide⟩

/-- C9 amended: for a non-empty attribute key whose override values have
unique top-level property names, every emitted config has truthy (defined,
though not necessarily string-valued) `key` and `title`, a boolean
`required`, and a `type` that is defined whenever the merged config carries
a truthy `type` or the model attribute declares a defined one. -/
theorem C9_invariant_amended (attrs g a : JsFields) (ty0 : Option String)
    (idf k : String) (e : ResolvedEntry)
    (hnd : (attrs.map Prod.fst).Nodup) (hk : k ≠ "")
    (hg : objKeysNodup (getField g k)) (ha : objKeysNodup (getField a k))
    (he : getEntry (getFields attrs g a ty0 idf).result k = some e) :
    ((e.config.getProp "key").truthy = true)
    ∧ ((e.config.getProp "title").truthy = true)
    ∧ (∃ b, e.config.getProp "required" = JsVal.bool b)
    ∧ ((((mergedConfig (getField g k) (getField a k) k).getProp "type").truthy = true
        ∨ e.model.getProp "type" ≠ JsVal.undefined) →
      e.config.getProp "type" ≠ JsVal.undefined) := by
  obtain ⟨mf0, _, _, _, rfl⟩ := getEntry_getFields_some attrs g a ty0 idf k e hnd he
  refine ⟨?_, ?_, ?_, ?_⟩
  · show ((finalConfig (getField g k) (getField a k) k
        (coerceModelField mf0)).getProp "key").truthy = true
    rw [finalConfig_getProp_other _ _ _ _ _ (by decide) (by decide)]
    exact mergedConfig_prop_truthy _ _ k "key" hk (Or.inl rfl) hg ha
  · show ((finalConfig (getField g k) (getField a k) k
        (coerceModelField mf0)).getProp "title").truthy = true
    rw [finalConfig_getProp_other _ _ _ _ _ (by decide) (by decide)]
    exact mergedConfig_prop_truthy _ _ k "title" hk (Or.inr rfl) hg ha
  · exact ⟨_, finalConfig_getProp_required _ _ _ _⟩
  · intro hor
    show (finalConfig (getField g k) (getField a k) k
        (coerceModelField mf0)).getProp "type" ≠ JsVal.undefined
    rw [finalConfig_getProp_type]
    by_cases ht : ((mergedConfig (getField g k) (getField a k) k).getProp
        "type").truthy = true
    · rw [if_pos ht]
      exact truthy_ne_undefined _ ht
    · rw [if_neg ht]
      rcases hor with hor | hor
      · exact absurd hor ht
      · exact hor

/-- Witness for C9 amended at a string-typed attribute with no overrides. -/
theorem C9_invariant_amended_witness :
    ((JsVal.obj [("key", JsVal.str "x"), ("title", JsVal.str "x"),
        ("required", JsVal.bool false), ("type", JsVal.str "string")]).getProp
          "key").truthy = true :=
  (C9_invariant_amended [("x", JsVal.obj [("type", JsVal.str "string")])] [] []
    (some "list") "id" "x"
    ⟨JsVal.obj [("key", JsVal.str "x"), ("title", JsVal.str "x"),
        ("required", JsVal.bool false), ("type", JsVal.str "string")],
      JsVal.obj [("type", JsVal.str "string")]⟩
    (by decide) (by decide) trivial trivial (by decide)).1

theorem mergedConfig_both_falsy (gv av : JsVal) (k : String) (hk : k ≠ "")
    (hg : gv.truthy = false) (ha : av.truthy = false) :
    mergedConfig gv av k = JsVal.obj [("key", JsVal.str k), ("title", JsVal.str k)] := by
  rw [mergedConfig]
  have h1 : layerStep (JsVal.obj [("key", JsVal.str k), ("title", JsVal.str k)]) gv k
      = JsVal.obj [("key", JsVal.str k), ("title", JsVal.str k)] := by
    rw [layerStep, hg]
    simp
  have h2 : layerStep (JsVal.obj [("key", JsVal.str k), ("title", JsVal.str k)]) av k
      = JsVal.obj [("key", JsVal.str k), ("title", JsVal.str k)] := by
    rw [layerStep, ha]
    simp
  rw [h1, h2]
  apply normBody_obj_fixpoint
  · rw [getField, if_pos rfl]
    exact str_truthy_of_ne k hk
  · rw [getField, if_neg (by decide), getField, if_pos rfl]
    exact str_truthy_of_ne k hk

theorem finalConfig_both_falsy (gv av : JsVal) (k : String) (mf : JsVal) (hk : k ≠ "")
    (hg : gv.truthy = false) (ha : av.truthy = false) :
    finalConfig gv av k mf
      = JsVal.obj [("key", JsVal.str k), ("title", JsVal.str k),
          ("required", JsVal.bool (mf.getProp "required").truthy),
          ("type", mf.getProp "type")] := by
  rw [finalConfig, mergedConfig_both_falsy gv av k hk hg ha]
  simp [JsVal.getProp, getField, JsVal.setProp, setField, JsVal.truthy]

/-- C10: a present-but-`undefined` override value, and more generally every
falsy override value other than literal `false` (`null`, `0`, `NaN`, the
empty string), is skipped entirely at both layers — it neither hides the
field nor is normalized or merged — so the field resolves with the default
title equal to its key and model-derived `type` and `required`. -/
theorem C10_falsy_skipped (attrs g a : JsFields) (ty0 : Option String)
    (idf k : String) (mf0 : JsVal)
    (hnd : (attrs.map Prod.fst).Nodup)
    (hmem : (k, mf0) ∈ pickAttrs attrs)
    (hskip : ¬(effectiveType ty0 = "add" ∧ k = idf))
    (hk : k ≠ "")
    (hg1 : (getField g k).truthy = false) (hg2 : getField g k ≠ JsVal.bool false)
    (ha1 : (getField a k).truthy = false) (ha2 : getField a k ≠ JsVal.bool false) :
    getEntry (getFields attrs g a ty0 idf).result k
      = some ⟨JsVal.obj [("key", JsVal.str k), ("title", JsVal.str k),
          ("required", JsVal.bool ((coerceModelField mf0).getProp "required").truthy),
          ("type", (coerceModelField mf0).getProp "type")],
        coerceModelField mf0⟩ := by
  rw [getFields_result attrs g a ty0 idf hnd,
    getEntry_filterMap (pickAttrs attrs)
      (fun x y => entryFor (effectiveType ty0) idf (getField g x) (getField a x) x y)
      k mf0 (pickAttrs_keys_nodup attrs hnd) hmem]
  have hig : resolvedIgnore (getField g k) (getField a k) = false := by
    rw [resolvedIgnore, if_neg ha2, ha1]
    simp [hg2]
  rw [entryFor, if_neg hskip, hig, if_neg (by simp),
    finalConfig_both_falsy (getField g k) (getField a k) k (coerceModelField mf0)
      hk hg1 ha1]

/-- Witness for C10: one layer holds `null`, the other `0`, for an attribute
with declared type `string` and `required: true`; the field resolves with
default title and model-derived type and required flag. -/
theorem C10_falsy_skipped_witness :
    getEntry (getFields
        [("x", JsVal.obj [("type", JsVal.str "string"), ("required", JsVal.bool true)])]
        [("x", JsVal.null)] [("x", JsVal.num 0)] (some "list") "id").result "x"
      = some ⟨JsVal.obj [("key", JsVal.str "x"), ("title", JsVal.str "x"),
          ("required", JsVal.bool ((coerceModelField
            (JsVal.obj [("type", JsVal.str "string"),
              ("required", JsVal.bool true)])).getProp "required").truthy),
          ("type", (coerceModelField (JsVal.obj [("type", JsVal.str "string"),
              ("required", JsVal.bool true)])).getProp "type")],
        coerceModelField (JsVal.obj [("type", JsVal.str "string"),
          ("required", JsVal.bool true)])⟩ :=
  C10_falsy_skipped
    [("x", JsVal.obj [("type", JsVal.str "string"), ("required", JsVal.bool true)])]
    [("x", JsVal.null)] [("x", JsVal.num 0)] (some "list") "id" "x"
    (JsVal.obj [("type", JsVal.str "string"), ("required", JsVal.bool true)])
    (by decide) (by decide) (by decide) (by decide) rfl (by decide) rfl (by decide)

end AdminPanel
